import Mathlib

set_option maxRecDepth 8000

attribute [local semireducible] Rat.add Rat.mul Rat.inv Rat.sub Rat.ofScientific

/- Verification of the COA field-extraction engine (coa-scraper.cjs and the
   server-side helpers of the Buzz Tracker backend).  The JavaScript sources
   work on strings with regular expressions; we model strings as Lean
   strings (lists of characters) and each regular expression as a
   backtracking pattern matcher with exactly the JavaScript semantics we
   need: leftmost match, greedy and lazy quantifiers with the usual
   backtracking priority, alternation preferring the left branch, word
   boundaries, lookahead.  Numbers are modelled as exact rationals. -/

/- ===================== character helpers ===================== -/

/-- JavaScript whitespace class backslash-s restricted to the ASCII
    whitespace characters that occur in the modelled documents. -/
def isWs (c : Char) : Bool :=
  c == ' ' || c == '\t' || c == '\n' || c == '\r' || c == '\x0b' || c == '\x0c'

/-- JavaScript word character class (letters, digits, underscore; ASCII). -/
def isWordChar (c : Char) : Bool :=
  c.isAlpha || c.isDigit || c == '_'

/-- JavaScript toLowerCase, modelled on the ASCII range (exact for every
    pattern literal in the source). -/
def jsLowerChar (c : Char) : Char := c.toLower

/-- JavaScript toUpperCase, modelled on the ASCII range. -/
def jsUpperChar (c : Char) : Char := c.toUpper

/-- Case-insensitive character comparison, as used by an /i regex flag. -/
def ciEq (a b : Char) : Bool := a.toLower == b.toLower

/-- String.prototype.toLowerCase. -/
def jsToLower (s : String) : String := String.mk (s.data.map jsLowerChar)

/-- String.prototype.toUpperCase. -/
def jsToUpper (s : String) : String := String.mk (s.data.map jsUpperChar)

/-- String.prototype.trim (ASCII whitespace). -/
def jsTrim (s : String) : String :=
  String.mk ((s.data.dropWhile isWs).reverse.dropWhile isWs |>.reverse)

/-- Substring test, String.prototype.includes. -/
def containsSub (hay needle : String) : Bool :=
  let rec go : List Char → Bool
    | [] => needle.data.isPrefixOf []
    | c :: cs => needle.data.isPrefixOf (c :: cs) || go cs
  go hay.data

/-- Digit run to natural number. -/
def digitsToNat (ds : List Char) : Nat :=
  ds.foldl (fun n c => n * 10 + (c.toNat - '0'.toNat)) 0

/-- Value of a decimal token of the shape produced by the numeric regexes
    (optional minus sign, digits, optionally a dot and more digits); models
    parseFloat on such tokens. -/
def ratOfDecimalString (s : String) : ℚ :=
  let core : List Char → ℚ := fun l =>
    let intPart := l.takeWhile (fun c => c ≠ '.')
    let fracPart := (l.dropWhile (fun c => c ≠ '.')).drop 1
    (digitsToNat intPart : ℚ) + (digitsToNat fracPart : ℚ) / (10 : ℚ) ^ fracPart.length
  match s.data with
  | '-' :: rest => - core rest
  | l => core l

/- ===================== pattern matchers ===================== -/

/-- Matcher state: the character immediately before the current position
    (needed for word boundaries) and the remaining input. -/
structure MState where
  prev : Option Char
  rest : List Char
deriving Repr, DecidableEq

/-- A backtracking pattern: from a state, the list of possible parses in
    backtracking priority order (the head is the parse a JavaScript regex
    engine commits to). -/
def Pat (α : Type) : Type := MState → List (α × MState)

instance : Monad Pat where
  pure a := fun s => [(a, s)]
  bind p f := fun s => (p s).flatMap fun x => f x.1 x.2
  map f p := fun s => (p s).map fun x => (f x.1, x.2)

/-- The pattern that never matches. -/
def pFail : Pat α := fun _ => []

/-- Alternation; the left branch has priority, as in a regex. -/
def pAlt (p q : Pat α) : Pat α := fun s => p s ++ q s

/-- Alternation over a list of branches, leftmost priority. -/
def pAlts (ps : List (Pat α)) : Pat α := ps.foldr pAlt pFail

/-- Match one character satisfying a predicate (a character class). -/
def pCharIf (f : Char → Bool) : Pat Char := fun s =>
  match s.rest with
  | [] => []
  | c :: cs => if f c then [(c, ⟨some c, cs⟩)] else []

/-- One-character class returning the consumed text. -/
def pOne (f : Char → Bool) : Pat (List Char) := do
  let c ← pCharIf f
  pure [c]

/-- Case-insensitive literal, returning the consumed source characters. -/
def pLitAux : List Char → Pat (List Char)
  | [] => pure []
  | c :: cs => do
    let d ← pCharIf (fun x => ciEq x c)
    let ds ← pLitAux cs
    pure (d :: ds)

/-- Case-insensitive literal as a string pattern. -/
def pLit (lit : String) : Pat String := do
  let ds ← pLitAux lit.data
  pure (String.mk ds)

/-- Case-sensitive literal. -/
def pLitCSAux : List Char → Pat (List Char)
  | [] => pure []
  | c :: cs => do
    let d ← pCharIf (fun x => x == c)
    let ds ← pLitCSAux cs
    pure (d :: ds)

/-- Case-sensitive literal as a string pattern. -/
def pLitCS (lit : String) : Pat String := do
  let ds ← pLitCSAux lit.data
  pure (String.mk ds)

/-- Greedy repetition, at most the given number of occurrences (longer
    parses first, as a greedy quantifier backtracks). -/
def pRepG (p : Pat (List Char)) : Nat → Pat (List Char)
  | 0 => pure []
  | n + 1 =>
    pAlt (do
      let a ← p
      let b ← pRepG p n
      pure (a ++ b)) (pure [])

/-- Exactly n occurrences. -/
def pRepExact (p : Pat (List Char)) : Nat → Pat (List Char)
  | 0 => pure []
  | n + 1 => do
    let a ← p
    let b ← pRepExact p n
    pure (a ++ b)

/-- Greedy bounded repetition between lo and hi occurrences. -/
def pRepRange (p : Pat (List Char)) (lo hi : Nat) : Pat (List Char) := do
  let a ← pRepExact p lo
  let b ← pRepG p (hi - lo)
  pure (a ++ b)

/-- Lazy repetition, at most n occurrences (shorter parses first). -/
def pRepL (p : Pat (List Char)) : Nat → Pat (List Char)
  | 0 => pure []
  | n + 1 =>
    pAlt (pure []) (do
      let a ← p
      let b ← pRepL p n
      pure (a ++ b))

/-- Run a pattern that is given the length of the remaining input (used to
    bound unbounded lazy quantifiers by the input size). -/
def pWithLen (g : Nat → Pat α) : Pat α := fun s => g s.rest.length s

/-- Unbounded greedy star over a character class: all splits of the maximal
    run, longest first. -/
def pStarCAux (f : Char → Bool) : Option Char → List Char → List (List Char × MState)
  | prev, [] => [([], ⟨prev, []⟩)]
  | prev, c :: cs =>
    if f c then
      ((pStarCAux f (some c) cs).map fun x => (c :: x.1, x.2)) ++ [([], ⟨prev, c :: cs⟩)]
    else
      [([], ⟨prev, c :: cs⟩)]

/-- Greedy star over a character class. -/
def pStarC (f : Char → Bool) : Pat (List Char) := fun s => pStarCAux f s.prev s.rest

/-- Greedy plus over a character class. -/
def pPlusC (f : Char → Bool) : Pat (List Char) := do
  let c ← pCharIf f
  let r ← pStarC f
  pure (c :: r)

/-- Lazy star over a character class (shortest first), bounded by the
    remaining input length. -/
def pStarCL (f : Char → Bool) : Pat (List Char) := pWithLen (fun n => pRepL (pOne f) n)

/-- Lazy plus over a character class. -/
def pPlusCL (f : Char → Bool) : Pat (List Char) := do
  let c ← pCharIf f
  let r ← pStarCL f
  pure (c :: r)

/-- Word boundary (regex backslash-b): consumes nothing. -/
def pWB : Pat Unit := fun s =>
  let before := match s.prev with | some c => isWordChar c | none => false
  let after := match s.rest with | c :: _ => isWordChar c | [] => false
  if before != after then [((), s)] else []

/-- Positive lookahead: succeeds without consuming if the argument can
    match here. -/
def pLook (p : Pat α) : Pat Unit := fun s =>
  if (p s).isEmpty then [] else [((), s)]

/-- End of input (anchor dollar without the multiline flag). -/
def pEndOfInput : Pat Unit := fun s =>
  if s.rest.isEmpty then [((), s)] else []

/-- Greedy optional group, result discarded. -/
def pOptU (p : Pat α) : Pat Unit :=
  pAlt (do let _ ← p; pure ()) (pure ())

/-- Greedy optional group returning the consumed text ('' when absent). -/
def pOptD (p : Pat (List Char)) : Pat (List Char) := pAlt p (pure [])

/-- Greedy optional group returning an optional result. -/
def pOptA (p : Pat α) : Pat (Option α) :=
  pAlt (do let a ← p; pure (some a)) (pure none)

/-- Whitespace star and plus (regex backslash-s star / plus). -/
def pWsStar : Pat (List Char) := pStarC isWs

/-- Whitespace plus. -/
def pWsPlus : Pat (List Char) := pPlusC isWs

/-- Digit repetition between lo and hi digits (greedy). -/
def pDigits (lo hi : Nat) : Pat (List Char) := pRepRange (pOne Char.isDigit) lo hi

/- ===================== running patterns ===================== -/

/-- Leftmost-match search, String.prototype.match without the g flag:
    scan positions left to right, at each position take the first parse. -/
def reSearchAux (p : Pat α) : Option Char → List Char → Option α
  | prev, rest =>
    match p ⟨prev, rest⟩ with
    | (a, _) :: _ => some a
    | [] =>
      match rest with
      | [] => none
      | c :: cs => reSearchAux p (some c) cs

/-- Search a string for the pattern. -/
def reSearch (p : Pat α) (s : String) : Option α :=
  reSearchAux p none s.data

/-- RegExp.prototype.test. -/
def reTest (p : Pat α) (s : String) : Bool :=
  (reSearch p s).isSome

/-- Leftmost-match search returning the state after the match as well. -/
def reSearchStAux (p : Pat α) : Option Char → List Char → Option (α × MState)
  | prev, rest =>
    match p ⟨prev, rest⟩ with
    | x :: _ => some x
    | [] =>
      match rest with
      | [] => none
      | c :: cs => reSearchStAux p (some c) cs

/-- String.prototype.matchAll: repeated leftmost search, continuing after
    each match (advancing one character after an empty match). -/
def reMatchAllAux (p : Pat α) : Nat → Option Char → List Char → List α
  | 0, _, _ => []
  | fuel + 1, prev, rest =>
    match reSearchStAux p prev rest with
    | none => []
    | some (a, s') =>
      if s'.rest.length < rest.length then
        a :: reMatchAllAux p fuel s'.prev s'.rest
      else
        match s'.rest with
        | [] => [a]
        | c :: cs => a :: reMatchAllAux p fuel (some c) cs

/-- All matches of a pattern in a string. -/
def reMatchAll (p : Pat α) (s : String) : List α :=
  reMatchAllAux p (s.data.length + 1) none s.data

/-- String.prototype.replace with the g flag: the pattern yields the
    replacement text for the part it consumed. -/
def gsubAux (p : Pat String) : Nat → Option Char → List Char → List Char
  | 0, _, rest => rest
  | fuel + 1, prev, rest =>
    match p ⟨prev, rest⟩ with
    | (repl, s') :: _ =>
      if s'.rest.length < rest.length then
        repl.data ++ gsubAux p fuel s'.prev s'.rest
      else
        repl.data ++
          (match rest with
           | [] => []
           | c :: cs => c :: gsubAux p fuel (some c) cs)
    | [] =>
      match rest with
      | [] => []
      | c :: cs => c :: gsubAux p fuel (some c) cs

/-- Global regex replacement on a string. -/
def gsub (p : Pat String) (s : String) : String :=
  String.mk (gsubAux p (2 * s.data.length + 2) none s.data)

/- ===================== known terpenes and synonyms ===================== -/

/-- KNOWN_TERPENES of coa-scraper.cjs, in source order. -/
def KNOWN_TERPENES : List String := [
  "myrcene", "limonene", "linalool", "terpinolene", "caryophyllene", "humulene",
  "alpha-pinene", "beta-pinene", "pinene", "ocimene", "farnesene", "nerolidol",
  "bisabolol", "eucalyptol", "camphene", "borneol", "caryophyllene-oxide", "cedrol",
  "guaiol", "sabinene", "terpineol", "geraniol", "isopulegol", "pulegone", "phytol",
  "fenchyl alcohol"]

/-- SYN of coa-scraper.cjs: the frozen synonym dictionary, in source order. -/
def SYN : List (String × String) := [
  ("β-caryophyllene", "caryophyllene"),
  ("b-caryophyllene", "caryophyllene"),
  ("beta-caryophyllene", "caryophyllene"),
  ("caryophyllene oxide", "caryophyllene-oxide"),
  ("α-humulene", "humulene"),
  ("a-humulene", "humulene"),
  ("d-limonene", "limonene"),
  ("1,8-cineole", "eucalyptol"),
  ("α-pinene", "alpha-pinene"),
  ("a-pinene", "alpha-pinene"),
  ("β-pinene", "beta-pinene"),
  ("b-pinene", "beta-pinene"),
  ("trans-caryophyllene", "caryophyllene"),
  ("fenchol", "fenchyl alcohol"),
  ("β-myrcene", "myrcene"),
  ("b-myrcene", "myrcene")]

/-- Object property lookup on a string-keyed dictionary. -/
def lookupStr (m : List (String × String)) (k : String) : Option String :=
  match m with
  | [] => none
  | (k', v) :: rest => if k' = k then some v else lookupStr rest k

/- ===================== numeric and unit utilities ===================== -/

/-- The token regex of toFloatSafe: an optional minus sign, digits,
    optionally a dot and more digits (leftmost match). -/
def reFloatToken : Pat String := do
  let sgn ← pOptD (pOne (fun c => c == '-'))
  let intPart ← pPlusC Char.isDigit
  let fracPart ← pOptD (do
    let d ← pOne (fun c => c == '.')
    let ds ← pPlusC Char.isDigit
    pure (d ++ ds))
  pure (String.mk (sgn ++ intPart ++ fracPart))

/-- toFloatSafe of coa-scraper.cjs: remove commas, find the first decimal
    or integer token, parse it; none when no token matches. -/
def toFloatSafe (x : String) : Option ℚ :=
  let noCommas := String.mk (x.data.filter (fun c => c ≠ ','))
  match reSearch reFloatToken noCommas with
  | some tok => some (ratOfDecimalString tok)
  | none => none

/-- Unit token mg/g with optional interior whitespace. -/
def pMgPerG : Pat String := do
  let a ← pLit "mg"
  let b ← pWsStar
  let c ← pLit "/"
  let d ← pWsStar
  let e ← pLit "g"
  pure (a ++ String.mk b ++ c ++ String.mk d ++ e)

/-- Unit token µg/g. -/
def pUgPerG1 : Pat String := do
  let a ← pLit "µg"
  let b ← pWsStar
  let c ← pLit "/"
  let d ← pWsStar
  let e ← pLit "g"
  pure (a ++ String.mk b ++ c ++ String.mk d ++ e)

/-- Unit token ug/g. -/
def pUgPerG2 : Pat String := do
  let a ← pLit "ug"
  let b ← pWsStar
  let c ← pLit "/"
  let d ← pWsStar
  let e ← pLit "g"
  pure (a ++ String.mk b ++ c ++ String.mk d ++ e)

/-- unitFrom of coa-scraper.cjs: classify a unit token into a percent,
    mg/g or µg/g unit; none for the empty string or an unknown token. -/
def unitFrom (s : String) : Option String :=
  if s = "" then none
  else
    let t := jsToLower s
    if reTest (pLit "%") t then some "%"
    else if reTest pMgPerG t then some "mg/g"
    else if reTest (pAlt pUgPerG1 pUgPerG2) t then some "ug/g"
    else none

/-- mgPerGToPercent: division by 10 (the null short-circuit of the source
    arrow function is handled at each call site). -/
def mgPerGToPercent (x : ℚ) : ℚ := x / 10

/-- ugPerGToPercent: division by 10000. -/
def ugPerGToPercent (x : ℚ) : ℚ := x / 10000

/-- The loop body of fixPercentOverflow with explicit fuel: while the
    value exceeds 100, divide by 10. -/
def fixAux : Nat → ℚ → ℚ
  | 0, v => v
  | n + 1, v => if 100 < v then fixAux n (v / 10) else v

/-- fixPercentOverflow of coa-scraper.cjs: while the value exceeds 100,
    divide by 10.  The fuel given to the loop is the absolute value of the
    numerator, which is proved sufficient below (fixAux_spec and
    fuel_sufficient): the loop always stops with the fuel to spare, so this
    equals the unbounded while loop. -/
def fixPercentOverflow (v : ℚ) : ℚ := fixAux v.num.natAbs v

/- ===================== decimal repair and normalization ===================== -/

/-- First rewrite of joinWeirdDecimals: a digit, optional whitespace, a dot
    or comma, optional whitespace, then two to four digits, rejoined with a
    dot (replacement of the source regex by dollar-1 dot dollar-2). -/
def reWeirdDecimalA : Pat String := do
  let d1 ← pCharIf Char.isDigit
  let _ ← pWsStar
  let _ ← pCharIf (fun c => c == '.' || c == ',')
  let _ ← pWsStar
  let d2 ← pDigits 2 4
  pure (String.mk (d1 :: '.' :: d2))

/-- Second rewrite of joinWeirdDecimals: a digit, whitespace, two to four
    digits, followed (lookahead) by optional whitespace and a percent sign
    or a backspace character (the source class is percent or backslash-b,
    and backslash-b inside a character class is the backspace character). -/
def reWeirdDecimalB : Pat String := do
  let d1 ← pCharIf Char.isDigit
  let _ ← pWsPlus
  let d2 ← pDigits 2 4
  pLook (do
    let _ ← pWsStar
    let _ ← pCharIf (fun c => c == '%' || c == '\x08')
    pure ())
  pure (String.mk (d1 :: '.' :: d2))

/-- joinWeirdDecimals of coa-scraper.cjs: rejoin decimal numbers split by
    stray whitespace, both global replacements in source order. -/
def joinWeirdDecimals (s : String) : String :=
  gsub reWeirdDecimalB (gsub reWeirdDecimalA s)

/-- Replacement of every run of two or more whitespace characters by one
    space (the whitespace-collapsing replace of the source).  The fuel is
    one more than the input length: every step consumes at least one
    character, so the fuel never runs out. -/
def collapseWsAux : Nat → List Char → List Char
  | 0, l => l
  | _ + 1, [] => []
  | fuel + 1, c :: rest =>
    if isWs c then
      match rest with
      | [] => [c]
      | d :: _ =>
        if isWs d then ' ' :: collapseWsAux fuel (rest.dropWhile isWs)
        else c :: collapseWsAux fuel rest
    else c :: collapseWsAux fuel rest

/-- String form of the whitespace-collapsing replace. -/
def collapseWs (s : String) : String :=
  String.mk (collapseWsAux (s.data.length + 1) s.data)

/-- Replacement of every run of carriage returns and newlines by one space
    (the first replace of normalizeForTHC); fuel as in collapseWsAux. -/
def newlinesToSpaceAux : Nat → List Char → List Char
  | 0, l => l
  | _ + 1, [] => []
  | fuel + 1, c :: rest =>
    if c == '\r' || c == '\n' then
      ' ' :: newlinesToSpaceAux fuel (rest.dropWhile (fun d => d == '\r' || d == '\n'))
    else c :: newlinesToSpaceAux fuel rest

/-- String form of the newline-run replace. -/
def newlinesToSpace (s : String) : String :=
  String.mk (newlinesToSpaceAux (s.data.length + 1) s.data)

/-- Replacement of every single carriage return or newline by a space (the
    cleanup applied to strain values). -/
def crOrLfToSpace (s : String) : String :=
  String.mk (s.data.map (fun c => if c == '\r' || c == '\n' then ' ' else c))

/-- String.prototype.split on an optional carriage return followed by a
    newline. -/
def splitLinesAux : List Char → List Char → List String
  | [], acc => [String.mk acc.reverse]
  | '\r' :: '\n' :: rest, acc => String.mk acc.reverse :: splitLinesAux rest []
  | '\n' :: rest, acc => String.mk acc.reverse :: splitLinesAux rest []
  | c :: rest, acc => splitLinesAux rest (c :: acc)

/-- Split a document into lines as the source does. -/
def splitLines (s : String) : List String := splitLinesAux s.data []

/- ===================== terpene name canonicalization ===================== -/

/-- The alpha-pinene test regex of canonTerp (case-insensitive,
    unanchored): alpha or a, an optional hyphen or whitespace, pinene. -/
def reAlphaPinene : Pat Unit :=
  pAlt
    (do
      let _ ← pLit "alpha"
      let _ ← pOptD (pOne (fun c => isWs c || c == '-'))
      let _ ← pLit "pinene"
      pure ())
    (do
      let _ ← pLit "a"
      let _ ← pOptD (pOne (fun c => isWs c || c == '-'))
      let _ ← pLit "pinene"
      pure ())

/-- The beta-pinene test regex of canonTerp. -/
def reBetaPinene : Pat Unit :=
  pAlt
    (do
      let _ ← pLit "beta"
      let _ ← pOptD (pOne (fun c => isWs c || c == '-'))
      let _ ← pLit "pinene"
      pure ())
    (do
      let _ ← pLit "b"
      let _ ← pOptD (pOne (fun c => isWs c || c == '-'))
      let _ ← pLit "pinene"
      pure ())

/-- The bare pinene test regex of canonTerp (word-bounded). -/
def rePineneWord : Pat Unit := do
  pWB
  let _ ← pLit "pinene"
  pWB
  pure ()

/-- The Greek-letter expansion of canonTerp: alpha for α, beta for β, each
    followed by a hyphen. -/
def greekExpand (s : String) : String :=
  String.mk (s.data.flatMap fun c =>
    if c = 'α' then "alpha-".data
    else if c = 'β' then "beta-".data
    else [c])

/-- canonTerp of coa-scraper.cjs.  A falsy argument gives null; a synonym
    hit returns the dictionary value; then the three pinene regexes run on
    the original argument; otherwise the first known terpene contained in
    the Greek-expanded lowercased name wins, with the lowercased trimmed
    text itself as the final fallback. -/
def canonTerp (name : String) : Option String :=
  if name = "" then none
  else
    let raw := jsTrim (jsToLower name)
    match lookupStr SYN raw with
    | some v => some v
    | none =>
      if reTest reAlphaPinene name then some "alpha-pinene"
      else if reTest reBetaPinene name then some "beta-pinene"
      else if reTest rePineneWord name then some "pinene"
      else
        let greek := greekExpand raw
        match KNOWN_TERPENES.find? (fun t => containsSub greek t) with
        | some t => some t
        | none => some raw

/-- The percent-column context regex of hasPercentContext, all five
    alternatives in source order. -/
def reHasPercentContext : Pat Unit :=
  pAlts [
    (do
      let _ ← pLit "Result"
      let _ ← pWsStar
      let _ ← pLit "%"
      let _ ← pWsStar
      let _ ← pLit "(total)"
      pure ()),
    (do
      let _ ← pLit "Amount"
      let _ ← pWsStar
      let _ ← pLit "(%"
      let _ ← pWsStar
      pOptU (pAlt (pLit "w/w") (pLit "wt/wt"))
      let _ ← pLit ")"
      pure ()),
    (do
      let _ ← pLit "%"
      let _ ← pWsStar
      let _ ← pAlt (pLit "w/w") (pLit "wt/wt")
      pure ()),
    (do
      let _ ← pLit "% of total terpenes"
      pure ()),
    (do
      let _ ← pLit "percent of total"
      pure ())]

/-- hasPercentContext of coa-scraper.cjs. -/
def hasPercentContext (text : String) : Bool :=
  reTest reHasPercentContext text

/- ===================== strain name extraction ===================== -/

/-- The class [:\-] used after every strain label. -/
def pColonDash : Pat (List Char) := pOne (fun c => c == ':' || c == '-')

/-- The regex dot (anything but a line terminator). -/
def jsDot (c : Char) : Bool := !(c == '\n' || c == '\r')

/-- Strain label pattern 1: word-bounded Strain, separator, greedy rest of
    line captured. -/
def reStrainLabel1 : Pat String := do
  pWB
  let _ ← pLit "Strain"
  let _ ← pWsStar
  let _ ← pColonDash
  let _ ← pWsStar
  let cap ← pPlusC jsDot
  pure (String.mk cap)

/-- Strain label pattern 2: Cultivar with an optional literal (s). -/
def reStrainLabel2 : Pat String := do
  pWB
  let _ ← pLit "Cultivar"
  pOptU (pLit "(s)")
  let _ ← pWsStar
  let _ ← pColonDash
  let _ ← pWsStar
  let cap ← pPlusC jsDot
  pure (String.mk cap)

/-- Strain label pattern 3: Sample Alias. -/
def reStrainLabel3 : Pat String := do
  pWB
  let _ ← pLit "Sample"
  let _ ← pWsStar
  let _ ← pLit "Alias"
  let _ ← pWsStar
  let _ ← pColonDash
  let _ ← pWsStar
  let cap ← pPlusC jsDot
  pure (String.mk cap)

/-- Strain label pattern 4: Product Name. -/
def reStrainLabel4 : Pat String := do
  pWB
  let _ ← pLit "Product"
  let _ ← pWsStar
  let _ ← pLit "Name"
  let _ ← pWsStar
  let _ ← pColonDash
  let _ ← pWsStar
  let cap ← pPlusC jsDot
  pure (String.mk cap)

/-- Strain label pattern 5: Cultivar with an optional plural s (note: the
    source has this plural variant here, not an Item label). -/
def reStrainLabel5 : Pat String := do
  pWB
  let _ ← pLit "Cultivar"
  pOptU (pLit "s")
  let _ ← pWsStar
  let _ ← pColonDash
  let _ ← pWsStar
  let cap ← pPlusC jsDot
  pure (String.mk cap)

/-- The cleanup applied to a matched strain value: newlines to spaces,
    whitespace runs collapsed, trimmed. -/
def strainClean (v : String) : String :=
  jsTrim (collapseWs (crOrLfToSpace v))

/-- parseStrain of coa-scraper.cjs: the five label patterns tried in
    order, first match wins, cleaned up. -/
def parseStrain (text : String) : Option String :=
  match reSearch reStrainLabel1 text with
  | some v => some (strainClean v)
  | none =>
    match reSearch reStrainLabel2 text with
    | some v => some (strainClean v)
    | none =>
      match reSearch reStrainLabel3 text with
      | some v => some (strainClean v)
      | none =>
        match reSearch reStrainLabel4 text with
        | some v => some (strainClean v)
        | none =>
          match reSearch reStrainLabel5 text with
          | some v => some (strainClean v)
          | none => none

/- ===================== terpene collection ===================== -/

/-- One collected terpene observation: canonical name and percent. -/
structure TerpRow where
  name : String
  percent : ℚ
deriving Repr, DecidableEq

/-- The character class prefix of the terpene name regex. -/
def terpClassChar (c : Char) : Bool :=
  c.isAlpha || c == 'µ' || c == 'β' || c == 'α' || c == '-' || c == '.' ||
    c == '/' || c == '(' || c == ')' || isWs c

/-- The terpene name regex of collectTerpenesAsPercent: a lazy run over
    the name character class followed by one of the listed terpene cores
    (the last core is fenchyl with an optional alcohol suffix); the
    capture is the prefix together with the core. -/
def reTerpName : Pat String := do
  let pre ← pStarCL terpClassChar
  let core ← pAlts [
    pLit "caryophyllene", pLit "pinene", pLit "myrcene", pLit "limonene",
    pLit "linalool", pLit "humulene", pLit "terpinolene", pLit "ocimene",
    pLit "farnesene", pLit "nerolidol", pLit "bisabolol", pLit "eucalyptol",
    (do
      let a ← pLit "fenchyl"
      let b ← pOptD (do
        let w ← pWsPlus
        let c ← pLit "alcohol"
        pure (w ++ c.data))
      pure (a ++ String.mk b))]
  pure (String.mk pre ++ core)

/-- One numeric token match of the matchAll regex of
    collectTerpenesAsPercent: the signed whole part, the optional fraction
    digits, the optional unit text. -/
structure NumMatch where
  whole : String
  frac : Option String
  unit : Option String
deriving Repr, DecidableEq

/-- The numeric token regex: an optional minus sign and one to three
    digits; optionally whitespace, a dot or comma, whitespace, one to four
    digits; whitespace; an optional unit (percent, mg/g, µg/g or ug/g). -/
def reNumToken : Pat NumMatch := do
  let sgn ← pOptD (pOne (fun c => c == '-'))
  let w ← pDigits 1 3
  let fr ← pOptA (do
    let _ ← pWsStar
    let _ ← pCharIf (fun c => c == '.' || c == ',')
    let _ ← pWsStar
    let d ← pDigits 1 4
    pure (String.mk d))
  let _ ← pWsStar
  let u ← pOptA (pAlts [pLit "%", pMgPerG, pUgPerG1, pUgPerG2])
  pure ⟨String.mk (sgn ++ w), fr, u⟩

/-- JavaScript falsiness of an optional string (null or the empty
    string). -/
def jsFalsyStr (o : Option String) : Bool :=
  match o with
  | none => true
  | some s => s = ""

/-- The body of the line loop of collectTerpenesAsPercent: returns the row
    pushed for this line, if any. -/
def terpLineRow (percentByHeader : Bool) (rawLine : String) : Option TerpRow :=
  let line := joinWeirdDecimals (jsTrim (collapseWs rawLine))
  match reSearch reTerpName line with
  | none => none
  | some cap =>
    let nameOpt := canonTerp cap
    if jsFalsyStr nameOpt then none
    else
      let name := nameOpt.getD ""
      let nums := reMatchAll reNumToken line
      if nums.isEmpty then none
      else
        let pick0 := nums.find? (fun n => containsSub (n.unit.getD "") "%")
        let pick1 :=
          match pick0 with
          | some p => some p
          | none => nums.find? (fun n => containsSub (jsToLower (n.unit.getD "")) "mg")
        let pick2 :=
          match pick1 with
          | some p => some p
          | none => nums.find? (fun n => containsSub (jsToLower (n.unit.getD "")) "g")
        let pick3 :=
          match pick2 with
          | some p => some p
          | none => if percentByHeader then nums.getLast? else none
        match pick3 with
        | none => none
        | some pick =>
          let fracStr := pick.frac.getD ""
          let valStr := if fracStr ≠ "" then pick.whole ++ "." ++ fracStr else pick.whole
          let val := toFloatSafe valStr
          let unit0 := unitFrom (pick.unit.getD "")
          let unit := if unit0.isNone && percentByHeader then some "%" else unit0
          match val, unit with
          | none, _ => none
          | _, none => none
          | some v, some u =>
            if u = "%" then some ⟨name, fixPercentOverflow v⟩
            else if u = "mg/g" then some ⟨name, mgPerGToPercent v⟩
            else if u = "ug/g" then some ⟨name, ugPerGToPercent v⟩
            else none

/-- Map get on the insertion-ordered best map. -/
def mapGet (m : List (String × TerpRow)) (k : String) : Option TerpRow :=
  match m with
  | [] => none
  | (k', v) :: rest => if k' = k then some v else mapGet rest k

/-- Map set on the insertion-ordered best map: an existing key keeps its
    position, a new key is appended (JavaScript Map semantics). -/
def mapSet (m : List (String × TerpRow)) (k : String) (v : TerpRow) : List (String × TerpRow) :=
  match m with
  | [] => [(k, v)]
  | (k', v') :: rest => if k' = k then (k, v) :: rest else (k', v') :: mapSet rest k v

/-- One step of the deduplication loop: keep the row with the larger
    percent per canonical name. -/
def bestStep (m : List (String × TerpRow)) (r : TerpRow) : List (String × TerpRow) :=
  match mapGet m r.name with
  | none => mapSet m r.name r
  | some prev => if prev.percent < r.percent then mapSet m r.name r else m

/-- collectTerpenesAsPercent of coa-scraper.cjs: scan lines for terpene
    rows, then deduplicate keeping the maximum percent per name, in map
    insertion order. -/
def collectTerpenesAsPercent (text : String) : List TerpRow :=
  let percentByHeader := hasPercentContext text
  let lines := splitLines text
  let rows := lines.filterMap (terpLineRow percentByHeader)
  let best := rows.foldl bestStep []
  best.map Prod.snd

/-- Insertion into a descending-sorted list, placing the new element
    before the first element whose percent is not larger (so an earlier
    element stays before a later one when percents tie). -/
def insertByPercentDesc (r : TerpRow) : List TerpRow → List TerpRow
  | [] => [r]
  | x :: xs => if x.percent ≤ r.percent then r :: x :: xs else x :: insertByPercentDesc r xs

/-- The stable descending sort by percent used by pickTopTerpenes:
    JavaScript sort with the comparator b.percent - a.percent is a stable
    descending sort, modelled by a stable insertion sort. -/
def sortByPercentDesc : List TerpRow → List TerpRow
  | [] => []
  | r :: rs => insertByPercentDesc r (sortByPercentDesc rs)

/-- The pinene co-elution halving of pickTopTerpenes. -/
def halfIfPinene (r : TerpRow) : TerpRow :=
  if r.name = "pinene" then { r with percent := r.percent * 0.5 } else r

/-- pickTopTerpenes of coa-scraper.cjs (lines 173 to 189): sort by percent
    descending, halve a generic pinene entry when an isomer-specific
    pinene is present and re-sort, then return the first limit names. -/
def pickTopTerpenes (text : String) (limit : Nat := 3) : List String :=
  let rows := collectTerpenesAsPercent text
  if rows.isEmpty then []
  else
    let rows1 := sortByPercentDesc rows
    let hasAlpha := rows1.any (fun r => r.name = "alpha-pinene")
    let hasBeta := rows1.any (fun r => r.name = "beta-pinene")
    let rows2 :=
      if hasAlpha || hasBeta then sortByPercentDesc (rows1.map halfIfPinene)
      else rows1
    (rows2.take limit).map TerpRow.name

/- ===================== THC parsing ===================== -/

/-- normalizeForTHC of coa-scraper.cjs: newline runs to spaces, whitespace
    runs collapsed, weird decimals rejoined. -/
def normalizeForTHC (text : String) : String :=
  joinWeirdDecimals (collapseWs (newlinesToSpace text))

/-- firstNumber of coa-scraper.cjs: search, then parse capture group one. -/
def firstNumber (p : Pat String) (s : String) : Option ℚ :=
  match reSearch p s with
  | some cap => toFloatSafe cap
  | none => none

/-- The captured number of the THC regexes: one to maxInt digits,
    optionally a dot or comma and one or two digits. -/
def pNumCap (maxInt : Nat) : Pat String := do
  let w ← pDigits 1 maxInt
  let fr ← pOptD (do
    let c ← pOne (fun c => c == '.' || c == ',')
    let d ← pDigits 1 2
    pure (c ++ d))
  pure (String.mk (w ++ fr))

/-- Up to forty non-digit characters (the proximity window of the THC
    label regexes). -/
def pProximity : Pat (List Char) := pRepRange (pOne (fun c => !c.isDigit)) 0 40

/-- Total (Active) THC followed by a percent value. -/
def reTotalThcPct : Pat String := do
  pWB
  let _ ← pLit "Total"
  let _ ← pWsPlus
  pOptU (do
    let _ ← pLit "Active"
    let _ ← pWsPlus
    pure ())
  let _ ← pLit "THC"
  pWB
  let _ ← pProximity
  let cap ← pNumCap 2
  let _ ← pWsStar
  let _ ← pLit "%"
  pure cap

/-- Total (Active) THC followed by an mg/g value. -/
def reTotalThcMg : Pat String := do
  pWB
  let _ ← pLit "Total"
  let _ ← pWsPlus
  pOptU (do
    let _ ← pLit "Active"
    let _ ← pWsPlus
    pure ())
  let _ ← pLit "THC"
  pWB
  let _ ← pProximity
  let cap ← pNumCap 3
  let _ ← pWsStar
  let _ ← pMgPerG
  pure cap

/-- THC A (with an optional whitespace or hyphen between) and a percent. -/
def reThcaPctA : Pat String := do
  pWB
  let _ ← pLit "THC"
  pOptU (pOne (fun c => isWs c || c == '-'))
  let _ ← pLit "A"
  pWB
  let _ ← pProximity
  let cap ← pNumCap 2
  let _ ← pWsStar
  let _ ← pLit "%"
  pure cap

/-- THCa and a percent. -/
def reThcaPctB : Pat String := do
  pWB
  let _ ← pLit "THCa"
  pWB
  let _ ← pProximity
  let cap ← pNumCap 2
  let _ ← pWsStar
  let _ ← pLit "%"
  pure cap

/-- Delta or Δ, optional hyphen, 9, optional hyphen, THC and a percent. -/
def reD9PctA : Pat String := do
  pWB
  let _ ← pAlt (pLit "Delta") (pLit "Δ")
  let _ ← pWsStar
  pOptU (pOne (fun c => c == '-'))
  let _ ← pWsStar
  let _ ← pLit "9"
  let _ ← pWsStar
  pOptU (pOne (fun c => c == '-'))
  let _ ← pWsStar
  let _ ← pLit "THC"
  pWB
  let _ ← pProximity
  let cap ← pNumCap 2
  let _ ← pWsStar
  let _ ← pLit "%"
  pure cap

/-- D, optional elta, optional hyphen, 9 and a percent. -/
def reD9PctB : Pat String := do
  pWB
  let _ ← pLit "D"
  pOptU (pLit "elta")
  pOptU (pOne (fun c => c == '-'))
  let _ ← pLit "9"
  pWB
  let _ ← pProximity
  let cap ← pNumCap 2
  let _ ← pWsStar
  let _ ← pLit "%"
  pure cap

/-- THC A and an mg/g value. -/
def reThcaMgA : Pat String := do
  pWB
  let _ ← pLit "THC"
  pOptU (pOne (fun c => isWs c || c == '-'))
  let _ ← pLit "A"
  pWB
  let _ ← pProximity
  let cap ← pNumCap 3
  let _ ← pWsStar
  let _ ← pMgPerG
  pure cap

/-- THCa and an mg/g value. -/
def reThcaMgB : Pat String := do
  pWB
  let _ ← pLit "THCa"
  pWB
  let _ ← pProximity
  let cap ← pNumCap 3
  let _ ← pWsStar
  let _ ← pMgPerG
  pure cap

/-- Delta 9 THC and an mg/g value. -/
def reD9MgA : Pat String := do
  pWB
  let _ ← pAlt (pLit "Delta") (pLit "Δ")
  let _ ← pWsStar
  pOptU (pOne (fun c => c == '-'))
  let _ ← pWsStar
  let _ ← pLit "9"
  let _ ← pWsStar
  pOptU (pOne (fun c => c == '-'))
  let _ ← pWsStar
  let _ ← pLit "THC"
  pWB
  let _ ← pProximity
  let cap ← pNumCap 3
  let _ ← pWsStar
  let _ ← pMgPerG
  pure cap

/-- D(elta)-9 and an mg/g value. -/
def reD9MgB : Pat String := do
  pWB
  let _ ← pLit "D"
  pOptU (pLit "elta")
  pOptU (pOne (fun c => c == '-'))
  let _ ← pLit "9"
  pWB
  let _ ← pProximity
  let cap ← pNumCap 3
  let _ ← pWsStar
  let _ ← pMgPerG
  pure cap

/-- The resolved THCA percent of parseTHC: the two percent regexes first,
    else the two mg/g regexes converted. -/
def thcaOf (flat : String) : Option ℚ :=
  (firstNumber reThcaPctA flat <|> firstNumber reThcaPctB flat) <|>
    (firstNumber reThcaMgA flat <|> firstNumber reThcaMgB flat).map mgPerGToPercent

/-- The resolved Delta-9 percent of parseTHC. -/
def d9Of (flat : String) : Option ℚ :=
  (firstNumber reD9PctA flat <|> firstNumber reD9PctB flat) <|>
    (firstNumber reD9MgA flat <|> firstNumber reD9MgB flat).map mgPerGToPercent

/-- Rounding to two decimals, modelling toFixed(2) on an exact value
    (nearest, ties up). -/
def round2 (q : ℚ) : ℚ := ((⌊q * 100 + 1 / 2⌋ : ℤ) : ℚ) / 100

/-- The THC result record. -/
structure ThcEstimate where
  totalPercent : Option ℚ
deriving Repr, DecidableEq

/-- parseTHC of coa-scraper.cjs (lines 199 to 225): direct Total THC
    percent first, then direct Total THC mg/g converted, then the
    decarboxylation formula on THCA and Delta-9 when at least one of the
    two is located, else null. -/
def parseTHC (text : String) : ThcEstimate :=
  let flat := normalizeForTHC text
  match firstNumber reTotalThcPct flat with
  | some pct => ⟨some pct⟩
  | none =>
    match firstNumber reTotalThcMg flat with
    | some mg => ⟨some (mgPerGToPercent mg)⟩
    | none =>
      match thcaOf flat, d9Of flat with
      | none, none => ⟨none⟩
      | t, d => ⟨some (round2 (0.877 * t.getD 0 + d.getD 0))⟩

/- ===================== type extraction ===================== -/

/-- The Sativa, Indica, Hybrid word regex of pickSih (word-bounded,
    case-insensitive, returning the text as written). -/
def reSih : Pat String := do
  pWB
  let w ← pAlts [pLit "Sativa", pLit "Indica", pLit "Hybrid"]
  pWB
  pure w

/-- pickSih of coa-scraper.cjs. -/
def pickSih (text : String) : Option String := reSearch reSih text

/-- The Type row regex of pickTypeRow: a word-bounded Type label, a lazy
    capture of non-newline characters, and a lookahead for two whitespace
    characters, a newline, or the end of input. -/
def reTypeRow : Pat String := do
  pWB
  let _ ← pLit "Type"
  let _ ← pWsStar
  let _ ← pColonDash
  let _ ← pWsStar
  let cap ← pPlusCL (fun c => !(c == '\n'))
  pLook (pAlts [
    (do
      let _ ← pOne isWs
      let _ ← pOne isWs
      pure ()),
    (do
      let _ ← pOne (fun c => c == '\n')
      pure ()),
    pEndOfInput])
  pure (String.mk cap)

/-- pickTypeRow of coa-scraper.cjs. -/
def pickTypeRow (text : String) : Option String :=
  (reSearch reTypeRow text).map jsTrim

/-- extractType of coa-scraper.cjs (lines 236 to 243): a bare keyword
    anywhere wins; else the Type row, scanned again for a keyword, with
    the full row value as fallback. -/
def extractType (text : String) : Option String :=
  match pickSih text with
  | some sih => some sih
  | none =>
    match pickTypeRow text with
    | none => none
    | some row =>
      match reSearch reSih row with
      | some tail => some tail
      | none => some row

/-- TYPE_MAP of the server file: product-code letters to lineage names. -/
def TYPE_MAP : List (String × String) := [("I", "Indica"), ("H", "Hybrid"), ("S", "Sativa")]

/-- The product-code regex of parseType (case-sensitive): a hyphen, one of
    I H S, a hyphen, two capital letters, a word boundary. -/
def reTypeCode : Pat Char := do
  let _ ← pOne (fun c => c == '-')
  let c ← pCharIf (fun c => c == 'I' || c == 'H' || c == 'S')
  let _ ← pOne (fun c => c == '-')
  let _ ← pCharIf (fun c => 'A' ≤ c && c ≤ 'Z')
  let _ ← pCharIf (fun c => 'A' ≤ c && c ≤ 'Z')
  pWB
  pure c

/-- The word fallback regex of parseType (case-insensitive, source
    alternation order Indica, Sativa, Hybrid). -/
def reSihISH : Pat String := do
  pWB
  let w ← pAlts [pLit "Indica", pLit "Sativa", pLit "Hybrid"]
  pWB
  pure w

/-- Capitalization applied to the word fallback of parseType. -/
def jsCapitalize (w : String) : String :=
  match w.data with
  | [] => ""
  | c :: cs => String.mk (jsUpperChar c :: cs.map jsLowerChar)

/-- parseType of the server file (lines 826 to 835): null on empty text,
    else the product-code suffix mapped through TYPE_MAP, else a bare
    lineage word anywhere, capitalized. -/
def parseType (text : String) : Option String :=
  if text = "" then none
  else
    match reSearch reTypeCode text with
    | some c => lookupStr TYPE_MAP (jsToUpper (String.mk [c]))
    | none =>
      match reSearch reSihISH text with
      | some w => some (jsCapitalize w)
      | none => none

/- ===================== assembly ===================== -/

/-- The assembled extraction record of parseCoa. -/
structure ExtractionResult where
  strain : Option String
  type : Option String
  dominantTerpene : Option String
  otherTerpenes : List String
  thc : ThcEstimate
deriving Repr, DecidableEq

/-- The pure assembly core of parseCoa (lines 246 to 268): document
    fetching and pdf or html text extraction are external input, and the
    sourceUrl passthrough is omitted; given the extracted text, the four
    field extractors run and the record is assembled, the first terpene
    name as dominant and the rest as others. -/
def parseCoaFields (text : String) : ExtractionResult :=
  let strain := parseStrain text
  let names := pickTopTerpenes text 3
  let thc := parseTHC text
  let type := extractType text
  { strain := strain, type := type, dominantTerpene := names.head?,
    otherTerpenes := names.tail, thc := ⟨thc.totalPercent⟩ }

/- ===================== fixPercentOverflow lemmas ===================== -/

/-- With enough fuel the overflow loop stops: the result is the input
    divided by a power of ten and is at most 100. -/
theorem fixAux_spec : ∀ (n : Nat) (v : ℚ), v ≤ 100 * 10 ^ n →
    (∃ k : Nat, fixAux n v = v / 10 ^ k) ∧ fixAux n v ≤ 100 := by
  intro n
  induction n with
  | zero =>
    intro v hv
    refine ⟨⟨0, by simp [fixAux]⟩, ?_⟩
    simpa [fixAux] using hv
  | succ m ih =>
    intro v hv
    by_cases h : 100 < v
    · have hv10 : v / 10 ≤ 100 * 10 ^ m := by
        rw [div_le_iff₀ (by norm_num : (0 : ℚ) < 10)]
        calc v ≤ 100 * 10 ^ (m + 1) := hv
          _ = 100 * 10 ^ m * 10 := by ring
      obtain ⟨⟨k, hk⟩, hle⟩ := ih (v / 10) hv10
      refine ⟨⟨k + 1, ?_⟩, ?_⟩
      · simp only [fixAux, if_pos h, hk]
        rw [div_div]
        congr 1
        rw [pow_succ]
        ring
      · simp only [fixAux, if_pos h]
        exact hle
    · refine ⟨⟨0, by simp [fixAux, h]⟩, ?_⟩
      simp only [fixAux, if_neg h]
      linarith [not_lt.mp h]

/-- The fuel given to fixPercentOverflow is sufficient: a rational is at
    most one hundred times ten to the absolute value of its numerator. -/
theorem fuel_sufficient (v : ℚ) : v ≤ 100 * 10 ^ v.num.natAbs := by
  by_cases h : v ≤ 0
  · calc v ≤ 0 := h
      _ ≤ 100 * 10 ^ v.num.natAbs := by positivity
  · push_neg at h
    have hnum : 0 < v.num := Rat.num_pos.mpr h
    have h1 : v ≤ (v.num : ℚ) := by
      conv_lhs => rw [← Rat.num_div_den v]
      apply div_le_self
      · exact_mod_cast hnum.le
      · exact_mod_cast v.den_pos
    have h2 : ((v.num.natAbs : ℕ) : ℤ) = v.num := Int.natAbs_of_nonneg hnum.le
    have h3 : ((v.num.natAbs : ℕ) : ℚ) ≤ (10 : ℚ) ^ v.num.natAbs := by
      exact_mod_cast (Nat.lt_pow_self (by norm_num) v.num.natAbs).le
    have h4 : (10 : ℚ) ^ v.num.natAbs ≤ 100 * 10 ^ v.num.natAbs := by
      nlinarith [pow_pos (by norm_num : (0 : ℚ) < 10) v.num.natAbs]
    calc v ≤ (v.num : ℚ) := h1
      _ = ((v.num.natAbs : ℕ) : ℚ) := by
        rw [← h2]
        exact (Int.cast_natCast _).symm
      _ ≤ (10 : ℚ) ^ v.num.natAbs := h3
      _ ≤ 100 * 10 ^ v.num.natAbs := h4

/-- The two-part specification of fixPercentOverflow. -/
theorem fixPercentOverflow_spec (v : ℚ) :
    (∃ n : Nat, fixPercentOverflow v = v / 10 ^ n) ∧ fixPercentOverflow v ≤ 100 :=
  fixAux_spec v.num.natAbs v (fuel_sufficient v)

/-- The loop body is the identity on values already at most 100, whatever
    the fuel. -/
theorem fixAux_of_le {v : ℚ} (h : v ≤ 100) : ∀ n, fixAux n v = v
  | 0 => rfl
  | n + 1 => by simp [fixAux, not_lt.mpr h]

/-- C8: the percent-overflow correction is idempotent and bounded: for
    every rational v, fixPercentOverflow (fixPercentOverflow v) equals
    fixPercentOverflow v, and fixPercentOverflow v is at most 100. -/
theorem thm_C8_fixPercentOverflow_idem_bounded (v : ℚ) :
    fixPercentOverflow (fixPercentOverflow v) = fixPercentOverflow v ∧
      fixPercentOverflow v ≤ 100 := by
  obtain ⟨_, hle⟩ := fixPercentOverflow_spec v
  exact ⟨fixAux_of_le hle _, hle⟩

/-- C9: the divide-by-ten loop of fixPercentOverflow terminates on every
    rational input: after finitely many divisions the value is at most 100,
    so the result is the input divided by some power of ten (rationals
    model the finite JavaScript numbers; an infinite input, on which the
    source loop would not terminate, is not representable). -/
theorem thm_C9_fixPercentOverflow_terminates (v : ℚ) :
    ∃ n : Nat, fixPercentOverflow v = v / 10 ^ n ∧ fixPercentOverflow v ≤ 100 := by
  obtain ⟨⟨n, hn⟩, hle⟩ := fixPercentOverflow_spec v
  exact ⟨n, hn, hle⟩

/- ===================== THC theorems ===================== -/

/-- C1: when the direct Total THC percent pattern finds a value on the
    normalized text (and THCA and Delta-9 values are separately locatable),
    parseTHC returns that direct value: the first step of the priority
    chain to succeed returns, so the computed formula is never consulted. -/
theorem thm_C1_parseTHC_direct_priority (t : String) (v a b : ℚ)
    (h : firstNumber reTotalThcPct (normalizeForTHC t) = some v)
    (_ha : thcaOf (normalizeForTHC t) = some a)
    (_hb : d9Of (normalizeForTHC t) = some b) :
    parseTHC t = ⟨some v⟩ := by
  simp only [parseTHC, h]

/-- Witness for C1 on the spec example: the text holds a direct Total THC
    of 18.5 percent next to THCA 20 percent and Delta-9 0.5 percent, and
    parseTHC returns 18.5, which differs from the computed value. -/
theorem wit_C1_parseTHC_direct_priority :
    parseTHC "Total THC: 18.5% THCA: 20% Delta-9 THC: 0.5%" = ⟨some (37 / 2)⟩ ∧
      (37 / 2 : ℚ) ≠ round2 (0.877 * 20 + 1 / 2) :=
  ⟨thm_C1_parseTHC_direct_priority "Total THC: 18.5% THCA: 20% Delta-9 THC: 0.5%"
      (37 / 2) 20 (1 / 2) (by decide) (by decide) (by decide),
    by decide⟩

/-- C2: when both direct Total THC patterns fail and at least one of the
    THCA or Delta-9 values is located (percent preferred, else mg/g
    converted), parseTHC returns the decarboxylation formula
    0.877 * thca + delta9 rounded to two decimals, a missing component
    counting as zero. -/
theorem thm_C2_parseTHC_computed (t : String)
    (h1 : firstNumber reTotalThcPct (normalizeForTHC t) = none)
    (h2 : firstNumber reTotalThcMg (normalizeForTHC t) = none)
    (h3 : ¬(thcaOf (normalizeForTHC t) = none ∧ d9Of (normalizeForTHC t) = none)) :
    parseTHC t =
      ⟨some (round2 (0.877 * (thcaOf (normalizeForTHC t)).getD 0 +
        (d9Of (normalizeForTHC t)).getD 0))⟩ := by
  simp only [parseTHC, h1, h2]
  cases hA : thcaOf (normalizeForTHC t) <;> cases hB : d9Of (normalizeForTHC t) <;>
    simp_all

/-- Witness for C2 on the spec example: THCA 20 percent and Delta-9 0.3
    percent give round(0.877 * 20 + 0.3, 2) = 17.84. -/
theorem wit_C2_parseTHC_computed :
    parseTHC "THCA: 20% Delta-9 THC: 0.3%" = ⟨some (446 / 25)⟩ := by
  rw [thm_C2_parseTHC_computed "THCA: 20% Delta-9 THC: 0.3%"
    (by decide) (by decide) (by decide)]
  decide

/- ===================== empty-input theorem ===================== -/

/-- C3: on the empty input text every extractor totalizes to its null or
    empty result and the assembled record is fully null. -/
theorem thm_C3_empty_input_all_null :
    parseCoaFields "" = ⟨none, none, none, [], ⟨none⟩⟩ ∧
      parseStrain "" = none ∧ extractType "" = none ∧
      pickTopTerpenes "" 3 = [] ∧ parseTHC "" = ⟨none⟩ := by
  exact ⟨by decide, by decide, by decide, by decide, by decide⟩

/- ===================== canonicalization theorems ===================== -/

/-- C4 counterexample: the synonym key β-pinene maps to beta-pinene, but a
    second canonicalization maps beta-pinene to alpha-pinene (the
    unanchored a[-s]?pinene regex matches inside beta-pinene), so double
    application is not a no-op on this key. -/
theorem cex_C4_canonTerp_not_idempotent :
    ("β-pinene", "beta-pinene") ∈ SYN ∧
      (canonTerp "β-pinene").bind canonTerp ≠ canonTerp "β-pinene" :=
  ⟨by decide, by decide⟩

/-- C4 amended: canonicalization is idempotent on every synonym key except
    caryophyllene oxide (whose value canonicalizes further to
    caryophyllene), β-pinene and b-pinene (whose value beta-pinene
    canonicalizes further to alpha-pinene). -/
theorem thm_C4_canonTerp_idem_on_other_synonyms :
    ∀ k ∈ SYN.map Prod.fst,
      k ≠ "caryophyllene oxide" → k ≠ "β-pinene" → k ≠ "b-pinene" →
      (canonTerp k).bind canonTerp = canonTerp k := by decide

/-- Witness for the amended C4 at the synonym key d-limonene. -/
theorem wit_C4_canonTerp_idem_on_other_synonyms :
    (canonTerp "d-limonene").bind canonTerp = canonTerp "d-limonene" :=
  thm_C4_canonTerp_idem_on_other_synonyms "d-limonene"
    (by decide) (by decide) (by decide) (by decide)

/- ===================== terpene ranking theorem ===================== -/

/-- C5 (the code at the cited lines has no positive-percent filter): a
    line whose only terpene observation has percent zero still produces a
    row, and pickTopTerpenes ranks and returns it, contrary to the claimed
    exclusion of zero or negative percents. -/
theorem thm_C5_zero_percent_is_ranked :
    collectTerpenesAsPercent "Myrcene 0 %" = [⟨"myrcene", 0⟩] ∧
      pickTopTerpenes "Myrcene 0 %" 3 = ["myrcene"] :=
  ⟨by decide, by decide⟩

/- ===================== type classification theorems ===================== -/

/-- C6 counterexample: the text TRU-Flower-I- contains the single letter I
    preceded and followed by hyphens, no bare lineage keyword and no Type
    row, yet both type extractors return null: extractType has no
    product-code step at all, and parseType requires the code to be
    followed by a two-capital-letter token. -/
theorem cex_C6_hyphen_letter_code_yields_null :
    containsSub "TRU-Flower-I-" "-I-" = true ∧
      pickSih "TRU-Flower-I-" = none ∧ pickTypeRow "TRU-Flower-I-" = none ∧
      extractType "TRU-Flower-I-" = none ∧ parseType "TRU-Flower-I-" = none := by
  exact ⟨by decide, by decide, by decide, by decide, by decide⟩

/-- C6 amended: the product-code mapping lives in parseType (the server
    helper), and fires only for a full code of the shape hyphen, one of
    I H S, hyphen, two capital letters: whenever that code regex matches a
    nonempty text, parseType returns the TYPE_MAP image of the captured
    letter (I to Indica, H to Hybrid, S to Sativa). -/
theorem thm_C6_parseType_maps_full_code (t : String) (c : Char)
    (ht : t ≠ "") (h : reSearch reTypeCode t = some c) :
    parseType t = lookupStr TYPE_MAP (jsToUpper (String.mk [c])) := by
  unfold parseType
  rw [if_neg ht, h]

/-- Witness for the amended C6 on a full product code. -/
theorem wit_C6_parseType_maps_full_code :
    parseType "TRU-Flower-I-FL" = some "Indica" := by
  rw [thm_C6_parseType_maps_full_code "TRU-Flower-I-FL" 'I' (by decide) (by decide)]
  decide

/- ===================== strain name theorems ===================== -/

/-- C7 counterexample: an input whose only label is an Item row yields
    null, because parseStrain has no Item pattern. -/
theorem cex_C7_item_label_not_recognized :
    parseStrain "Item: Blue Dream" = none := by decide

/-- C7 amended: parseStrain tries the label patterns Strain, Cultivar(s),
    Sample Alias, Product Name and Cultivars (a plural variant, not an
    Item label) in order; when the first four find nothing and the fifth
    captures a value, that value is returned trimmed and
    whitespace-collapsed. -/
theorem thm_C7_parseStrain_label_order (t v : String)
    (h1 : reSearch reStrainLabel1 t = none) (h2 : reSearch reStrainLabel2 t = none)
    (h3 : reSearch reStrainLabel3 t = none) (h4 : reSearch reStrainLabel4 t = none)
    (h5 : reSearch reStrainLabel5 t = some v) :
    parseStrain t = some (strainClean v) := by
  simp only [parseStrain, h1, h2, h3, h4, h5]

/-- Witness for the amended C7 on a Cultivars row. -/
theorem wit_C7_parseStrain_label_order :
    parseStrain "Cultivars: Blue Dream" = some "Blue Dream" := by
  rw [thm_C7_parseStrain_label_order "Cultivars: Blue Dream" "Blue Dream"
    (by decide) (by decide) (by decide) (by decide) (by decide)]
  decide

/- ===================== deduplication invariants ===================== -/

/-- The invariant of the deduplication map: keys are distinct and every
    stored row carries its key as its name. -/
def bestInv (m : List (String × TerpRow)) : Prop :=
  (m.map Prod.fst).Nodup ∧ ∀ p ∈ m, TerpRow.name p.2 = p.1

/-- Setting a key either keeps the key list (existing key) or appends the
    new key. -/
theorem mapSet_fst (m : List (String × TerpRow)) (k : String) (v : TerpRow) :
    (mapSet m k v).map Prod.fst =
      if k ∈ m.map Prod.fst then m.map Prod.fst else m.map Prod.fst ++ [k] := by
  induction m with
  | nil => simp [mapSet]
  | cons p rest ih =>
    obtain ⟨k', v'⟩ := p
    by_cases h : k' = k
    · subst h
      simp [mapSet]
    · simp only [mapSet, if_neg h, List.map_cons, ih]
      by_cases h2 : k ∈ rest.map Prod.fst
      · simp [h2, Ne.symm h]
      · simp [h2, Ne.symm h]

/-- Every entry of the updated map is the new pair or an old entry. -/
theorem mapSet_mem {m : List (String × TerpRow)} {k : String} {v : TerpRow}
    {p : String × TerpRow} (hp : p ∈ mapSet m k v) : p = (k, v) ∨ p ∈ m := by
  induction m with
  | nil => simpa [mapSet] using hp
  | cons q rest ih =>
    obtain ⟨k', v'⟩ := q
    by_cases h : k' = k
    · subst h
      have hp' : p = (k', v) ∨ p ∈ rest := by simpa [mapSet] using hp
      rcases hp' with h1 | h1
      · exact Or.inl h1
      · exact Or.inr (List.mem_cons_of_mem _ h1)
    · have hp' : p = (k', v') ∨ p ∈ mapSet rest k v := by simpa [mapSet, h] using hp
      rcases hp' with h1 | h1
      · exact Or.inr (by simp [h1])
      · rcases ih h1 with h2 | h2
        · exact Or.inl h2
        · exact Or.inr (List.mem_cons_of_mem _ h2)

/-- Setting a key whose row carries that key preserves the invariant. -/
theorem bestInv_mapSet {m : List (String × TerpRow)} {k : String} {v : TerpRow}
    (h : bestInv m) (hv : TerpRow.name v = k) : bestInv (mapSet m k v) := by
  refine ⟨?_, ?_⟩
  · rw [mapSet_fst]
    by_cases hk : k ∈ m.map Prod.fst
    · simpa [hk] using h.1
    · simp only [if_neg hk]
      rw [List.nodup_append]
      refine ⟨h.1, List.nodup_singleton k, ?_⟩
      intro a ha hak
      rw [List.mem_singleton] at hak
      subst hak
      exact hk ha
  · intro p hp
    rcases mapSet_mem hp with h1 | h1
    · subst h1
      exact hv
    · exact h.2 p h1

/-- One deduplication step preserves the invariant. -/
theorem bestInv_bestStep {m : List (String × TerpRow)} (h : bestInv m) (r : TerpRow) :
    bestInv (bestStep m r) := by
  unfold bestStep
  cases hg : mapGet m r.name with
  | none => exact bestInv_mapSet h rfl
  | some prev =>
    by_cases hc : prev.percent < r.percent
    · simpa [hc] using bestInv_mapSet h rfl
    · simpa [hc] using h

/-- The deduplication fold preserves the invariant. -/
theorem bestInv_foldl (rows : List TerpRow) :
    ∀ m, bestInv m → bestInv (rows.foldl bestStep m) := by
  induction rows with
  | nil => intro m h; simpa using h
  | cons r rs ih =>
    intro m h
    simpa using ih (bestStep m r) (bestInv_bestStep h r)

/-- The deduplicated rows of collectTerpenesAsPercent have pairwise
    distinct canonical names. -/
theorem collect_names_nodup (t : String) :
    ((collectTerpenesAsPercent t).map TerpRow.name).Nodup := by
  simp only [collectTerpenesAsPercent]
  have h := bestInv_foldl
    ((splitLines t).filterMap (terpLineRow (hasPercentContext t))) []
    ⟨List.nodup_nil, by simp⟩
  rw [List.map_map]
  have he : ((((splitLines t).filterMap (terpLineRow (hasPercentContext t))).foldl
        bestStep []).map (TerpRow.name ∘ Prod.snd)) =
      (((splitLines t).filterMap (terpLineRow (hasPercentContext t))).foldl
        bestStep []).map Prod.fst :=
    List.map_congr_left (fun p hp => h.2 p hp)
  rw [he]
  exact h.1

/- ===================== sorting and ranking invariants ===================== -/

/-- Stable descending insertion permutes the inserted list. -/
theorem insertByPercentDesc_perm (r : TerpRow) (l : List TerpRow) :
    (insertByPercentDesc r l).Perm (r :: l) := by
  induction l with
  | nil => exact List.Perm.refl [r]
  | cons x xs ih =>
    by_cases h : x.percent ≤ r.percent
    · simp [insertByPercentDesc, h]
    · simp only [insertByPercentDesc, if_neg h]
      exact (ih.cons x).trans (List.Perm.swap r x xs)

/-- The stable descending sort permutes its input. -/
theorem sortByPercentDesc_perm (l : List TerpRow) : (sortByPercentDesc l).Perm l := by
  induction l with
  | nil => exact List.Perm.refl []
  | cons r rs ih =>
    exact (insertByPercentDesc_perm r (sortByPercentDesc rs)).trans (ih.cons r)

/-- The pinene halving keeps the name. -/
theorem halfIfPinene_name (r : TerpRow) : (halfIfPinene r).name = r.name := by
  unfold halfIfPinene
  split <;> rfl

/-- The ranked name list of pickTopTerpenes has no duplicates. -/
theorem pickTopTerpenes_nodup (t : String) (limit : Nat) :
    (pickTopTerpenes t limit).Nodup := by
  by_cases hE : (collectTerpenesAsPercent t).isEmpty
  · simp [pickTopTerpenes, hE]
  · have base : ((collectTerpenesAsPercent t).map TerpRow.name).Nodup :=
      collect_names_nodup t
    have h1 : ((sortByPercentDesc (collectTerpenesAsPercent t)).map TerpRow.name).Nodup :=
      (((sortByPercentDesc_perm (collectTerpenesAsPercent t)).map TerpRow.name).nodup_iff).mpr
        base
    have h1h : ((sortByPercentDesc ((sortByPercentDesc
        (collectTerpenesAsPercent t)).map halfIfPinene)).map TerpRow.name).Nodup := by
      have hmapped : (((sortByPercentDesc (collectTerpenesAsPercent t)).map
          halfIfPinene).map TerpRow.name) =
          ((sortByPercentDesc (collectTerpenesAsPercent t)).map TerpRow.name) := by
        rw [List.map_map]
        exact List.map_congr_left (fun r _ => halfIfPinene_name r)
      exact (((sortByPercentDesc_perm _).map TerpRow.name).nodup_iff).mpr
        (hmapped ▸ h1)
    simp only [pickTopTerpenes, hE, Bool.false_eq_true, if_false]
    by_cases hP : ((sortByPercentDesc (collectTerpenesAsPercent t)).any
        (fun r => r.name = "alpha-pinene") ||
      (sortByPercentDesc (collectTerpenesAsPercent t)).any
        (fun r => r.name = "beta-pinene"))
    · simp only [hP, if_true]
      rw [List.map_take]
      exact List.Nodup.sublist (List.take_sublist _ _) h1h
    · simp only [hP, Bool.false_eq_true, if_false]
      rw [List.map_take]
      exact List.Nodup.sublist (List.take_sublist _ _) h1

/-- Splitting a list at its optional head restores it. -/
theorem head?_toList_append_tail (l : List α) : l.head?.toList ++ l.tail = l := by
  cases l <;> rfl

/-- C10: the assembled record keeps the terpene fields consistent: when
    the dominant terpene is null the other-terpene list is empty, and the
    names across dominant and others are pairwise distinct (each canonical
    name appears at most once in the returned top three). -/
theorem thm_C10_terpene_fields_consistent (text : String) :
    ((parseCoaFields text).dominantTerpene = none →
      (parseCoaFields text).otherTerpenes = []) ∧
    ((parseCoaFields text).dominantTerpene.toList ++
      (parseCoaFields text).otherTerpenes).Nodup := by
  simp only [parseCoaFields]
  constructor
  · intro h
    rw [List.head?_eq_none_iff] at h
    simp [h]
  · rw [head?_toList_append_tail]
    exact pickTopTerpenes_nodup text 3

/-- Witness for C10 at the empty document. -/
theorem wit_C10_terpene_fields_consistent :
    ((parseCoaFields "").dominantTerpene = none →
      (parseCoaFields "").otherTerpenes = []) ∧
    ((parseCoaFields "").dominantTerpene.toList ++
      (parseCoaFields "").otherTerpenes).Nodup :=
  thm_C10_terpene_fields_consistent ""
